import Mathlib

/-!
Verification of the `accesscontrol` grant model (v1.5.0).

The builder (`lib/core/Access.js`) is embedded directly from the source.
The collaborators it calls (`utils.commitToGrants`, `utils.extendRole`,
`utils.toStringArray`, `utils.resetAttributes`, `utils.isInfoFulfilled`,
the role graph and the permission query) are not part of the given source
tree, so they are modelled from the specification (sections 4.1-4.5, 7).

Grants are a nested association-list mapping
role -> resource -> "action:possession" -> attribute list; the role graph
is an adjacency association-list role -> extended roles.
-/

namespace AC


/-- CRUD actions (`enums.Action`). -/
inductive Action
  | create
  | read
  | update
  | delete
  deriving DecidableEq, Repr

/-- Possession qualifier (`enums.Possession`). -/
inductive Possession
  | own
  | any
  deriving DecidableEq, Repr

/-- String key of an action, as used in the `"action:possession"` grant key. -/
def actionKey : Action → String
  | .create => "create"
  | .read => "read"
  | .update => "update"
  | .delete => "delete"

/-- String key of a possession. -/
def possessionKey : Possession → String
  | .own => "own"
  | .any => "any"

/-- The `"action:possession"` key under which an attribute list is stored. -/
def apKey (a : Action) (p : Possession) : String :=
  actionKey a ++ ":" ++ possessionKey p

/-- A value that is either a single string or an array of strings, as the
JS API accepts for roles, resources and attributes. -/
inductive StrOrArr
  | str (s : String)
  | arr (l : List String)
  deriving DecidableEq, Repr

/-- Modelled from the spec: `AttributeFilter.normalize` / `utils.toStringArray`
(section 4.1) — accepts either a single string or a sequence of strings and
always returns a sequence. -/
def toStringArray : StrOrArr → List String
  | .str s => [s]
  | .arr l => l

/-- JS truthiness of an optional string-or-array value: `undefined` and the
empty string are falsy, every other string and every array is truthy. -/
def truthy : Option StrOrArr → Bool
  | none => false
  | some (.str s) => !s.isEmpty
  | some (.arr _) => true

/-- Association list with string keys.  Used for every level of the grants
structure and for the role-graph adjacency. -/

def lookupA {α : Type} : List (String × α) → String → Option α
  | [], _ => none
  | (k, v) :: rest, key => if k = key then some v else lookupA rest key

/-- Insert-or-overwrite into an association list (the first occurrence of the
key, which is the one `lookupA` sees, is replaced). -/
def insertA {α : Type} : List (String × α) → String → α → List (String × α)
  | [], k, v => [(k, v)]
  | (k', v') :: rest, k, v =>
      if k' = k then (k, v) :: rest else (k', v') :: insertA rest k v

/-- The extended roles of `r` (empty if `r` has no extend edges). -/
def succOf (edges : List (String × List String)) (r : String) : List String :=
  (lookupA edges r).getD []

/-- One extend edge: `y` is directly extended by `x`. -/
def Rel (edges : List (String × List String)) (x y : String) : Prop :=
  y ∈ succOf edges x

/-- Reachability along extend edges (reflexive-transitive). -/
def Reaches (edges : List (String × List String)) : String → String → Prop :=
  Relation.ReflTransGen (Rel edges)

/-- All roles appearing as a target of some extend edge. -/
def allTargets : List (String × List String) → List String
  | [] => []
  | (_, ts) :: rest => ts ++ allTargets rest

/-- Add to `acc` every element of `ts` that is neither in the current set `S`
nor already in `acc` (order-preserving, duplicate-free accumulation). -/
def addNew (S : List String) : List String → List String → List String
  | acc, [] => acc
  | acc, t :: ts => addNew S (if t ∈ S ∨ t ∈ acc then acc else acc ++ [t]) ts

/-- The roles directly extended by some role of `S` that are not already
in `S`, in first-discovery order without duplicates. -/
def newSuccsAux (edges : List (String × List String)) (S : List String) :
    List String → List String → List String
  | acc, [] => acc
  | acc, r :: rs => newSuccsAux edges S (addNew S acc (succOf edges r)) rs

def newSuccs (edges : List (String × List String)) (S : List String) : List String :=
  newSuccsAux edges S [] S

/-- One expansion step of the closure computation: append the newly
reachable roles. -/
def stepC (edges : List (String × List String)) (S : List String) : List String :=
  S ++ newSuccs edges S

/-- Iterate the expansion step `n` times. -/
def iterStep (edges : List (String × List String)) : Nat → List String → List String
  | 0, S => S
  | n + 1, S => iterStep edges n (stepC edges S)

/-- Enough iterations for `stepC` to reach a fixed point: one more than the
number of distinct extend targets. -/
def boundK (edges : List (String × List String)) : Nat :=
  (allTargets edges).dedup.length + 1

/-- Modelled from the spec: `RoleGraph.closure` (section 4.2) — the input
roles plus every role transitively reachable via extend edges. -/
def closureL (edges : List (String × List String)) (S : List String) : List String :=
  iterStep edges (boundK edges) S

/-- The nested grants mapping: role -> resource -> "action:possession" ->
attribute list. -/
abbrev Grants := List (String × List (String × List (String × List String)))

/-- The full engine state: the grants mapping and the role-graph adjacency. -/
structure ACState where
  grants : Grants
  edges : List (String × List String)
  deriving DecidableEq, Repr

/-- Error kinds of the engine (spec section 7). -/
inductive AccessError
  | invalidGrant
  | cycleErr
  | invalidAttr
  deriving DecidableEq, Repr

/-- The inner `IAccessInfo` object held by an `Access` builder (`this._`). -/
structure AccessInfo where
  role : Option StrOrArr
  resource : Option StrOrArr
  attributes : Option StrOrArr
  action : Option Action
  possession : Option Possession
  denied : Bool
  deriving DecidableEq, Repr

/-- The all-fields-unset info object (`this._ = {}` with `denied = false`). -/
def infoNone : AccessInfo := ⟨none, none, none, none, none, false⟩

/-- Modelled from the spec: the well-typedness test of section 4.3 — a
role/resource field is well-typed when it is a non-empty string or a
non-empty sequence of strings. -/
def validSA : StrOrArr → Bool
  | .str s => !s.isEmpty
  | .arr l => !l.isEmpty

/-- `toStringArray` lifted to an optional value (absent becomes `[]`). -/
def toStringArrayO : Option StrOrArr → List String
  | none => []
  | some sa => toStringArray sa

/-- Modelled from the spec: the attribute defaulting of section 4.3 — the
effective attribute list stored by a commit is `[]` when denied, and the
supplied attributes normalized otherwise, defaulting to `["*"]` when
absent. -/
def effAttrs (i : AccessInfo) : List String :=
  if i.denied then []
  else
    match i.attributes with
    | none => ["*"]
    | some sa => toStringArray sa

/-- Look up the attribute list stored for `(role, resource, key)`. -/
def lookupG (g : Grants) (r res k : String) : Option (List String) :=
  ((lookupA g r).bind (fun m => lookupA m res)).bind (fun m2 => lookupA m2 k)

/-- Write `grants[r][res][k] = v`, creating the intermediate levels. -/
def setGrant (g : Grants) (r res k : String) (v : List String) : Grants :=
  insertA g r
    (insertA ((lookupA g r).getD []) res
      (insertA ((lookupA ((lookupA g r).getD []) res).getD []) k v))

/-- Write the entry for one role under every resource of the list. -/
def writeRes (r k : String) (v : List String) : Grants → List String → Grants
  | g, [] => g
  | g, res :: ress => writeRes r k v (setGrant g r res k v) ress

/-- Write the entry for every (role, resource) pair expanded from the
possibly-array role and resource fields (spec section 4.3, storage write). -/
def commitWrite (k : String) (v : List String) (ress : List String) :
    Grants → List String → Grants
  | g, [] => g
  | g, r :: rs => commitWrite k v ress (writeRes r k v g ress) rs

/-- Modelled from the spec: `GrantStore.commit` / `utils.commitToGrants`
(sections 4.3 and 7).  Validates that role, resource, action and possession
are present and well-typed (failing with `InvalidGrantError` otherwise, so a
malformed commit never enters the store); in strict mode additionally
requires attributes to be present; then writes the effective attribute list
under every expanded (role, resource) pair, overwriting any prior value. -/
def commitToGrants (st : ACState) (info : AccessInfo) (strict : Bool) :
    Except AccessError ACState :=
  match info.role, info.resource, info.action, info.possession with
  | some ro, some res, some a, some p =>
      if validSA ro && validSA res && (!strict || info.attributes.isSome) then
        .ok { st with
              grants := commitWrite (apKey a p) (effAttrs info)
                          (toStringArray res) st.grants (toStringArray ro) }
      else .error .invalidGrant
  | _, _, _, _ => .error .invalidGrant

/-- Add an edge from every role of `rs` to every target of `ts`. -/
def addAllEdges (ts : List String) :
    List (String × List String) → List String → List (String × List String)
  | es, [] => es
  | es, r :: rs => addAllEdges ts (insertA es r (succOf es r ++ ts)) rs

/-- Modelled from the spec: `utils.extendRole` / `GrantStore.extend` with
`RoleGraph.addEdge` (sections 4.2 and 4.3) — for every (role, target) pair a
cycle check is performed (target equals role, or role already reachable from
target); any hit fails the whole call with `CycleError` before any mutation
is applied; otherwise all edges are inserted. -/
def extendRole (st : ACState) (roles targets : StrOrArr) :
    Except AccessError ACState :=
  let rs := toStringArray roles
  let ts := toStringArray targets
  if ∃ r ∈ rs, ∃ t ∈ ts, r = t ∨ r ∈ closureL st.edges [t] then .error .cycleErr
  else .ok { st with edges := addAllEdges ts st.edges rs }

/-- Modelled from the spec: `utils.resetAttributes` — applies the attribute
defaulting rule to an info object: denied forces `attributes = []`; not
denied with attributes absent defaults them to `["*"]`. -/
def resetAttributes (i : AccessInfo) : AccessInfo :=
  if i.denied then { i with attributes := some (.arr []) }
  else
    match i.attributes with
    | none => { i with attributes := some (.arr ["*"]) }
    | some _ => i

/-- Modelled from the spec: `utils.isInfoFulfilled` (section 4.4) — an info
object is fulfilled when it already has `action` and `resource` defined. -/
def isInfoFulfilled (i : AccessInfo) : Bool :=
  i.action.isSome && i.resource.isSome

/-- The `Access` builder: a reference to the shared grants state plus the
inner info object `this._`. -/
structure Access where
  grants : ACState
  info : AccessInfo
  deriving DecidableEq, Repr

/-- The argument accepted by the `Access` constructor and by `grant`/`deny`:
a single role, an array of roles, or a full info object. -/
inductive RoleOrInfo
  | roles (v : StrOrArr)
  | info (i : AccessInfo)
  deriving DecidableEq, Repr

/-- The `Access` constructor (src lines 31-52).  For a role or role-array the
info object is fresh with only `denied` and `role` set.  For an info object,
`denied` is assigned onto it, `resetAttributes` is applied, and if the object
is fulfilled it is committed with `strict = true` immediately.  The second
component is the final contents of `this._` — which, in the object form, is
the caller-supplied object itself, mutated in place, even when the commit
fails. -/
def accessNew (st : ACState) (ri : RoleOrInfo) (denied : Bool) :
    Except AccessError Access × AccessInfo :=
  match ri with
  | .roles v =>
      (.ok ⟨st, { infoNone with denied := denied, role := some v }⟩,
        { infoNone with denied := denied, role := some v })
  | .info i =>
      let i2 := resetAttributes { i with denied := denied }
      if isInfoFulfilled i2 then
        match commitToGrants st i2 true with
        | .ok st2 => (.ok ⟨st2, i2⟩, i2)
        | .error e => (.error e, i2)
      else (.ok ⟨st, i2⟩, i2)

/-- `Access.prototype.role` chainer (src lines 79-82). -/
def Access.role (a : Access) (v : StrOrArr) : Access :=
  { a with info := { a.info with role := some v } }

/-- `Access.prototype.resource` chainer (src lines 90-93). -/
def Access.resource (a : Access) (v : StrOrArr) : Access :=
  { a with info := { a.info with resource := some v } }

/-- `Access.prototype.attributes` chainer (src lines 101-104). -/
def Access.attributes (a : Access) (v : StrOrArr) : Access :=
  { a with info := { a.info with attributes := some v } }

/-- `Access.prototype.extend` (src lines 112-115): delegates to
`utils.extendRole` with the current role.  The JS source passes `this._.role`
unconditionally; the unset-role case is not specified, so the model reports
an invalid grant for it. -/
def Access.extend (a : Access) (roles : StrOrArr) : Except AccessError Access :=
  match a.info.role with
  | some r =>
      match extendRole a.grants r roles with
      | .ok st2 => .ok { a with grants := st2 }
      | .error e => .error e
  | none => .error .invalidGrant

/-- `Access.prototype.grant` (src lines 131-133): a new `Access` on the same
grants with `denied = false`, then `.attributes(['*'])`.  Second component:
the final contents of the new instance's info object (the caller's object,
when an info object was passed), which is updated even when the constructor's
immediate commit fails. -/
def Access.grant (a : Access) (ri : RoleOrInfo) :
    Except AccessError Access × AccessInfo :=
  match accessNew a.grants ri false with
  | (.ok b, _) => (.ok (b.attributes (.arr ["*"])), (b.attributes (.arr ["*"])).info)
  | (.error e, obj) => (.error e, obj)

/-- `Access.prototype.deny` (src lines 149-151): a new `Access` on the same
grants with `denied = true`, then `.attributes([])`. -/
def Access.deny (a : Access) (ri : RoleOrInfo) :
    Except AccessError Access × AccessInfo :=
  match accessNew a.grants ri true with
  | (.ok b, _) => (.ok (b.attributes (.arr [])), (b.attributes (.arr [])).info)
  | (.error e, obj) => (.error e, obj)

/-- The info-object mutations of `Access.prototype._prepareAndCommit`
(src lines 406-418): set action and possession, overwrite resource and
attributes when the arguments are truthy, then force attributes to `[]` when
denied and otherwise normalize them with the `["*"]` default. -/
def prepInfo (i : AccessInfo) (action : Action) (possession : Possession)
    (resource attrs : Option StrOrArr) : AccessInfo :=
  let i0 := { i with action := some action, possession := some possession }
  let i1 := if truthy resource then { i0 with resource := resource } else i0
  let i2 := if truthy attrs then { i1 with attributes := attrs } else i1
  if i2.denied then { i2 with attributes := some (.arr []) }
  else if truthy i2.attributes then
    { i2 with attributes := some (.arr (toStringArrayO i2.attributes)) }
  else { i2 with attributes := some (.arr ["*"]) }

/-- `Access.prototype._prepareAndCommit` (src lines 405-423): applies the
info mutations of `prepInfo`, commits with `strict = false`, and finally
resets the transient attributes field for chained methods. -/
def Access.prepareAndCommit (a : Access) (action : Action)
    (possession : Possession) (resource attrs : Option StrOrArr) :
    Except AccessError Access :=
  match commitToGrants a.grants (prepInfo a.info action possession resource attrs) false with
  | .ok st2 =>
      .ok ⟨st2, { prepInfo a.info action possession resource attrs with
                  attributes := none }⟩
  | .error e => .error e

/-- Terminal `createOwn` (src lines 175-177). -/
def Access.createOwn (a : Access) (resource attrs : Option StrOrArr) :
    Except AccessError Access :=
  a.prepareAndCommit .create .own resource attrs

/-- Terminal `createAny` (src lines 203-205). -/
def Access.createAny (a : Access) (resource attrs : Option StrOrArr) :
    Except AccessError Access :=
  a.prepareAndCommit .create .any resource attrs

/-- Terminal `readOwn` (src lines 235-237). -/
def Access.readOwn (a : Access) (resource attrs : Option StrOrArr) :
    Except AccessError Access :=
  a.prepareAndCommit .read .own resource attrs

/-- Terminal `readAny` (src lines 263-265). -/
def Access.readAny (a : Access) (resource attrs : Option StrOrArr) :
    Except AccessError Access :=
  a.prepareAndCommit .read .any resource attrs

/-- Terminal `updateOwn` (src lines 295-297). -/
def Access.updateOwn (a : Access) (resource attrs : Option StrOrArr) :
    Except AccessError Access :=
  a.prepareAndCommit .update .own resource attrs

/-- Terminal `updateAny` (src lines 323-325). -/
def Access.updateAny (a : Access) (resource attrs : Option StrOrArr) :
    Except AccessError Access :=
  a.prepareAndCommit .update .any resource attrs

/-- Terminal `deleteOwn` (src lines 355-357). -/
def Access.deleteOwn (a : Access) (resource attrs : Option StrOrArr) :
    Except AccessError Access :=
  a.prepareAndCommit .delete .own resource attrs

/-- Terminal `deleteAny` (src lines 383-385). -/
def Access.deleteAny (a : Access) (resource attrs : Option StrOrArr) :
    Except AccessError Access :=
  a.prepareAndCommit .delete .any resource attrs

/-- Duplicate-removing accumulation preserving first-seen order. -/
def dedupKeep : List String → List String → List String
  | acc, [] => acc
  | acc, x :: xs => dedupKeep (if x ∈ acc then acc else acc ++ [x]) xs

/-- Modelled from the spec: `AttributeFilter.union` (section 4.1) —
concatenation with duplicate removal, preserving first-seen order; negation
patterns are kept as-is (resolved lazily by the consumer). -/
def unionAttrs (a b : List String) : List String :=
  dedupKeep [] (a ++ b)

/-- Fold the attribute lists found for the closure roles through the union. -/
def queryFold (g : Grants) (res k : String) : List String → List String → List String
  | acc, [] => acc
  | acc, r :: rs =>
      queryFold g res k
        (match lookupG g r res k with
         | some attrs => unionAttrs acc attrs
         | none => acc) rs

/-- Modelled from the spec: `PermissionQuery.query` (section 4.5) — computes
the closure of the queried roles, looks up
`grants[role][resource]["action:possession"]` for every role in the closure,
and folds all found attribute lists through the union; `[]` when nothing is
found.  Never fails. -/
def queryAttrs (st : ACState) (roles : List String) (res : String)
    (a : Action) (p : Possession) : List String :=
  queryFold st.grants res (apKey a p) [] (closureL st.edges roles)

/-- The empty engine state. -/
def emptyAC : ACState := ⟨[], []⟩

/-- A present and well-typed role/resource field (spec section 4.3): the
field is supplied and is a non-empty string or a non-empty string sequence. -/
def validRR : Option StrOrArr → Bool
  | none => false
  | some sa => validSA sa

/-- Concrete builder states used to witness C6. -/
def c6A : Access := ⟨emptyAC, ⟨some (.str "user"), none, none, none, none, false⟩⟩

def c6B : Access :=
  ⟨⟨[("user", [("video", [("create:own", ["title"])])])], []⟩,
    ⟨some (.str "user"), some (.str "video"), none, some .create, some .own,
      false⟩⟩

def c6C : Access :=
  ⟨⟨[("user", [("video", [("create:own", ["title"]), ("read:any", ["*"])])])],
      []⟩,
    ⟨some (.str "user"), some (.str "video"), none, some .read, some .any,
      false⟩⟩

theorem lookupA_cons {α : Type} (a x : String) (b : α) (t : List (String × α)) :
    lookupA ((a, b) :: t) x = if a = x then some b else lookupA t x := rfl

theorem lookupA_insertA {α : Type} (m : List (String × α)) (k x : String) (v : α) :
    lookupA (insertA m k v) x = if x = k then some v else lookupA m x := by
  induction m with
  | nil =>
      show (if k = x then some v else none) = if x = k then some v else none
      by_cases h : x = k
      · rw [if_pos h, if_pos h.symm]
      · rw [if_neg h, if_neg (fun e => h e.symm)]
  | cons p rest ih =>
      obtain ⟨k', v'⟩ := p
      by_cases hk : k' = k
      · subst hk
        have hins : insertA ((k', v') :: rest) k' v = (k', v) :: rest := by
          simp [insertA]
        rw [hins, lookupA_cons, lookupA_cons]
        by_cases hx : x = k'
        · rw [if_pos hx.symm, if_pos hx]
        · rw [if_neg (fun e => hx e.symm), if_neg hx, if_neg (fun e => hx e.symm)]
      · have hins : insertA ((k', v') :: rest) k v = (k', v') :: insertA rest k v := by
          simp [insertA, hk]
        rw [hins, lookupA_cons, lookupA_cons, ih]
        by_cases hx : k' = x
        · have hxk : ¬ x = k := fun e => hk (hx.trans e)
          rw [if_pos hx, if_neg hxk, if_pos hx]
        · rw [if_neg hx, if_neg hx]

theorem insertA_self {α : Type} (m : List (String × α)) (k : String) (v : α)
    (h : lookupA m k = some v) : insertA m k v = m := by
  induction m with
  | nil => simp [lookupA] at h
  | cons p rest ih =>
      obtain ⟨k', v'⟩ := p
      by_cases hk : k' = k
      · subst hk
        simp [lookupA] at h
        simp [insertA, h]
      · simp [lookupA, hk] at h
        simp [insertA, hk, ih h]

theorem lookupA_mem {α : Type} (m : List (String × α)) (k : String) (v : α)
    (h : lookupA m k = some v) : (k, v) ∈ m := by
  induction m with
  | nil => simp [lookupA] at h
  | cons p rest ih =>
      obtain ⟨k', v'⟩ := p
      by_cases hk : k' = k
      · subst hk
        simp [lookupA] at h
        simp [h]
      · simp [lookupA, hk] at h
        simp [ih h]

theorem mem_allTargets {edges : List (String × List String)} {r : String}
    {l : List String} (hm : (r, l) ∈ edges) {y : String} (hy : y ∈ l) :
    y ∈ allTargets edges := by
  induction edges with
  | nil => simp at hm
  | cons p rest ih =>
      rcases List.mem_cons.mp hm with h1 | h1
      · subst h1
        simp [allTargets, hy]
      · obtain ⟨a, ts⟩ := p
        simp [allTargets, ih h1]

theorem succOf_subset_allTargets {edges : List (String × List String)}
    {x y : String} (h : y ∈ succOf edges x) : y ∈ allTargets edges := by
  unfold succOf at h
  cases hl : lookupA edges x with
  | none => rw [hl] at h; simp at h
  | some l =>
      rw [hl] at h
      exact mem_allTargets (lookupA_mem _ _ _ hl) h

theorem mem_addNew (S : List String) (ts : List String) :
    ∀ acc x, x ∈ addNew S acc ts ↔ x ∈ acc ∨ (x ∈ ts ∧ x ∉ S) := by
  induction ts with
  | nil => intro acc x; simp [addNew]
  | cons t ts ih =>
      intro acc x
      by_cases hc : t ∈ S ∨ t ∈ acc
      · rw [addNew, if_pos hc, ih]
        constructor
        · rintro (h | ⟨h1, h2⟩)
          · exact Or.inl h
          · exact Or.inr ⟨List.mem_cons_of_mem _ h1, h2⟩
        · rintro (h | ⟨h1, h2⟩)
          · exact Or.inl h
          · rcases List.mem_cons.mp h1 with he | hm
            · subst he
              rcases hc with h3 | h3
              · exact absurd h3 h2
              · exact Or.inl h3
            · exact Or.inr ⟨hm, h2⟩
      · rw [addNew, if_neg hc, ih]
        push_neg at hc
        constructor
        · rintro (h | ⟨h1, h2⟩)
          · rcases List.mem_append.mp h with h | h
            · exact Or.inl h
            · rcases List.mem_singleton.mp h with he
              subst he
              exact Or.inr ⟨List.mem_cons_self _ _, hc.1⟩
          · exact Or.inr ⟨List.mem_cons_of_mem _ h1, h2⟩
        · rintro (h | ⟨h1, h2⟩)
          · exact Or.inl (List.mem_append.mpr (Or.inl h))
          · rcases List.mem_cons.mp h1 with he | hm
            · subst he
              exact Or.inl (List.mem_append.mpr (Or.inr (List.mem_singleton.mpr rfl)))
            · exact Or.inr ⟨hm, h2⟩

theorem addNew_nodup (S : List String) (ts : List String) :
    ∀ acc, acc.Nodup → (addNew S acc ts).Nodup := by
  induction ts with
  | nil => intro acc h; exact h
  | cons t ts ih =>
      intro acc h
      by_cases hc : t ∈ S ∨ t ∈ acc
      · rw [addNew, if_pos hc]; exact ih acc h
      · rw [addNew, if_neg hc]
        push_neg at hc
        refine ih _ ?_
        rw [List.nodup_append]
        exact ⟨h, List.nodup_singleton t, by
          intro a ha hb
          rcases List.mem_singleton.mp hb with rfl
          exact hc.2 ha⟩

theorem mem_newSuccsAux (edges : List (String × List String)) (S : List String)
    (L : List String) :
    ∀ acc x, x ∈ newSuccsAux edges S acc L ↔
      x ∈ acc ∨ ((∃ r ∈ L, x ∈ succOf edges r) ∧ x ∉ S) := by
  induction L with
  | nil => intro acc x; simp [newSuccsAux]
  | cons r rs ih =>
      intro acc x
      rw [newSuccsAux, ih, mem_addNew]
      constructor
      · rintro ((h | ⟨h1, h2⟩) | ⟨⟨r', hr', h1⟩, h2⟩)
        · exact Or.inl h
        · exact Or.inr ⟨⟨r, List.mem_cons_self _ _, h1⟩, h2⟩
        · exact Or.inr ⟨⟨r', List.mem_cons_of_mem _ hr', h1⟩, h2⟩
      · rintro (h | ⟨⟨r', hr', h1⟩, h2⟩)
        · exact Or.inl (Or.inl h)
        · rcases List.mem_cons.mp hr' with he | hm
          · subst he
            exact Or.inl (Or.inr ⟨h1, h2⟩)
          · exact Or.inr ⟨⟨r', hm, h1⟩, h2⟩

theorem mem_newSuccs (edges : List (String × List String)) (S : List String)
    (x : String) :
    x ∈ newSuccs edges S ↔ (∃ r ∈ S, x ∈ succOf edges r) ∧ x ∉ S := by
  rw [newSuccs, mem_newSuccsAux]
  simp

theorem newSuccsAux_nodup (edges : List (String × List String)) (S : List String)
    (L : List String) :
    ∀ acc, acc.Nodup → (newSuccsAux edges S acc L).Nodup := by
  induction L with
  | nil => intro acc h; exact h
  | cons r rs ih =>
      intro acc h
      exact ih _ (addNew_nodup _ _ _ h)

theorem newSuccs_nodup (edges : List (String × List String)) (S : List String) :
    (newSuccs edges S).Nodup :=
  newSuccsAux_nodup edges S S [] List.nodup_nil

theorem mem_stepC (edges : List (String × List String)) (S : List String)
    (x : String) :
    x ∈ stepC edges S ↔ x ∈ S ∨ ∃ r ∈ S, x ∈ succOf edges r := by
  rw [stepC, List.mem_append, mem_newSuccs]
  by_cases hx : x ∈ S
  · simp [hx]
  · simp [hx]

theorem iterStep_fix (edges : List (String × List String)) (n : Nat)
    (S : List String) (h : stepC edges S = S) : iterStep edges n S = S := by
  induction n with
  | zero => rfl
  | succ n ih => rw [iterStep, h, ih]

theorem subset_stepC (edges : List (String × List String)) (S : List String) :
    S ⊆ stepC edges S := fun _ hx => List.mem_append.mpr (Or.inl hx)

theorem subset_iterStep (edges : List (String × List String)) (n : Nat) :
    ∀ S, S ⊆ iterStep edges n S := by
  induction n with
  | zero => intro S x hx; exact hx
  | succ n ih =>
      intro S x hx
      rw [iterStep]
      exact ih (stepC edges S) (subset_stepC edges S hx)

theorem length_lt_stepC (edges : List (String × List String)) (S : List String)
    (h : stepC edges S ≠ S) : S.length + 1 ≤ (stepC edges S).length := by
  rw [stepC, List.length_append]
  rcases Nat.eq_zero_or_pos (newSuccs edges S).length with h0 | h0
  · exfalso
    apply h
    rw [stepC, List.length_eq_zero.mp h0, List.append_nil]
  · omega

theorem iterStep_decomp (edges : List (String × List String)) (n : Nat) :
    ∀ S, ∃ E, iterStep edges n S = S ++ E ∧ E.Nodup ∧
      ∀ x ∈ E, x ∈ allTargets edges ∧ x ∉ S := by
  induction n with
  | zero =>
      intro S
      exact ⟨[], by simp [iterStep], List.nodup_nil, by simp⟩
  | succ n ih =>
      intro S
      obtain ⟨E', hE', hnd', hprop'⟩ := ih (stepC edges S)
      refine ⟨newSuccs edges S ++ E', ?_, ?_, ?_⟩
      · rw [iterStep, hE', stepC, List.append_assoc]
      · rw [List.nodup_append]
        refine ⟨newSuccs_nodup edges S, hnd', ?_⟩
        intro a ha hb
        exact (hprop' a hb).2 (List.mem_append.mpr (Or.inr ha))
      · intro x hx
        rcases List.mem_append.mp hx with hx | hx
        · rw [mem_newSuccs] at hx
          obtain ⟨⟨r, _, hr⟩, hnotS⟩ := hx
          exact ⟨succOf_subset_allTargets hr, hnotS⟩
        · have := hprop' x hx
          exact ⟨this.1, fun hS => this.2 (subset_stepC edges S hS)⟩

theorem iterStep_fix_or_grow (edges : List (String × List String)) (n : Nat) :
    ∀ S, stepC edges (iterStep edges n S) = iterStep edges n S ∨
      S.length + n ≤ (iterStep edges n S).length := by
  induction n with
  | zero => intro S; right; simp [iterStep]
  | succ n ih =>
      intro S
      by_cases hf : stepC edges S = S
      · left
        rw [iterStep, hf, iterStep_fix edges n S hf, hf]
      · rcases ih (stepC edges S) with h | h
        · left
          rw [iterStep]
          exact h
        · right
          rw [iterStep]
          have h1 := length_lt_stepC edges S hf
          omega

theorem nodup_subset_length {E T : List String} (hnd : E.Nodup)
    (hsub : ∀ x ∈ E, x ∈ T) : E.length ≤ T.dedup.length := by
  have h1 : E.toFinset.card = E.length := List.toFinset_card_of_nodup hnd
  have h2 : T.toFinset.card = T.dedup.length := by
    simp [List.card_toFinset]
  have h3 : E.toFinset ⊆ T.toFinset := by
    intro a ha
    rw [List.mem_toFinset] at ha ⊢
    exact hsub a ha
  calc E.length = E.toFinset.card := h1.symm
    _ ≤ T.toFinset.card := Finset.card_le_card h3
    _ = T.dedup.length := h2

theorem stepC_closureL (edges : List (String × List String)) (S : List String) :
    stepC edges (closureL edges S) = closureL edges S := by
  rcases iterStep_fix_or_grow edges (boundK edges) S with h | h
  · exact h
  · exfalso
    obtain ⟨E, hE, hnd, hprop⟩ := iterStep_decomp edges (boundK edges) S
    have hlen : E.length ≤ (allTargets edges).dedup.length :=
      nodup_subset_length hnd (fun x hx => (hprop x hx).1)
    have hb : boundK edges = (allTargets edges).dedup.length + 1 := rfl
    rw [hE, List.length_append] at h
    omega

theorem subset_closureL (edges : List (String × List String)) (S : List String) :
    S ⊆ closureL edges S := subset_iterStep edges (boundK edges) S

theorem closureL_sound (edges : List (String × List String)) (n : Nat) :
    ∀ S x, x ∈ iterStep edges n S → ∃ r ∈ S, Reaches edges r x := by
  induction n with
  | zero =>
      intro S x hx
      exact ⟨x, hx, Relation.ReflTransGen.refl⟩
  | succ n ih =>
      intro S x hx
      rw [iterStep] at hx
      obtain ⟨r', hr', hre⟩ := ih (stepC edges S) x hx
      rcases (mem_stepC edges S r').mp hr' with h | ⟨r, hr, hsucc⟩
      · exact ⟨r', h, hre⟩
      · exact ⟨r, hr, Relation.ReflTransGen.head hsucc hre⟩

theorem mem_closureL_sound (edges : List (String × List String)) (S : List String)
    (x : String) (hx : x ∈ closureL edges S) : ∃ r ∈ S, Reaches edges r x :=
  closureL_sound edges (boundK edges) S x hx

theorem mem_closureL_complete (edges : List (String × List String))
    (S : List String) {r x : String} (hr : r ∈ S) (hre : Reaches edges r x) :
    x ∈ closureL edges S := by
  induction hre with
  | refl => exact subset_closureL edges S hr
  | tail _ hbc ih =>
      rw [← stepC_closureL edges S]
      rw [mem_stepC]
      exact Or.inr ⟨_, ih, hbc⟩

theorem mem_closureL_iff (edges : List (String × List String)) (S : List String)
    (x : String) : x ∈ closureL edges S ↔ ∃ r ∈ S, Reaches edges r x := by
  constructor
  · exact mem_closureL_sound edges S x
  · rintro ⟨r, hr, hre⟩
    exact mem_closureL_complete edges S hr hre

/-! ## Grant-store lemmas -/

theorem lookupG_setGrant (g : Grants) (r0 res0 k0 : String) (v : List String)
    (r res k : String) :
    lookupG (setGrant g r0 res0 k0 v) r res k =
      if r = r0 ∧ res = res0 ∧ k = k0 then some v else lookupG g r res k := by
  unfold setGrant lookupG
  rw [lookupA_insertA]
  by_cases hr : r = r0
  · rw [if_pos hr]
    subst hr
    rw [Option.some_bind, lookupA_insertA]
    by_cases hres : res = res0
    · rw [if_pos hres]
      subst hres
      rw [Option.some_bind, lookupA_insertA]
      by_cases hk : k = k0
      · rw [if_pos hk, if_pos ⟨rfl, rfl, hk⟩]
      · rw [if_neg hk, if_neg (fun h => hk h.2.2)]
        cases hg : lookupA g r with
        | none => simp [hg, lookupA]
        | some m =>
            simp only [hg, Option.getD_some, Option.some_bind]
            cases hm : lookupA m res with
            | none => simp [hm, lookupA]
            | some m2 => simp [hm]
    · rw [if_neg hres, if_neg (fun h => hres h.2.1)]
      cases hg : lookupA g r with
      | none => simp [hg, lookupA]
      | some m => simp [hg]
  · rw [if_neg hr, if_neg (fun h => hr h.1)]

theorem setGrant_self (g : Grants) (r res k : String) (v : List String)
    (h : lookupG g r res k = some v) : setGrant g r res k v = g := by
  unfold lookupG at h
  cases hg : lookupA g r with
  | none => rw [hg] at h; simp at h
  | some m =>
      rw [hg] at h
      rw [Option.some_bind] at h
      cases hm : lookupA m res with
      | none => rw [hm] at h; simp at h
      | some m2 =>
          rw [hm, Option.some_bind] at h
          unfold setGrant
          rw [hg, Option.getD_some, hm, Option.getD_some,
            insertA_self m2 k v h, insertA_self m res m2 hm,
            insertA_self g r m hg]

theorem lookupG_writeRes (r k : String) (v : List String) (ress : List String)
    (r' res' k' : String) :
    ∀ g, lookupG (writeRes r k v g ress) r' res' k' =
      if r' = r ∧ res' ∈ ress ∧ k' = k then some v else lookupG g r' res' k' := by
  induction ress with
  | nil =>
      intro g
      rw [if_neg (by simp)]
      rfl
  | cons res0 ress ih =>
      intro g
      rw [writeRes, ih, lookupG_setGrant]
      by_cases h1 : r' = r <;> by_cases h3 : k' = k <;>
        by_cases h4 : res' = res0 <;> by_cases h2 : res' ∈ ress <;>
          simp [h1, h2, h3, h4]

theorem lookupG_commitWrite (k : String) (v : List String)
    (ress : List String) (roles : List String) (r' res' k' : String) :
    ∀ g, lookupG (commitWrite k v ress g roles) r' res' k' =
      if r' ∈ roles ∧ res' ∈ ress ∧ k' = k then some v
      else lookupG g r' res' k' := by
  induction roles with
  | nil =>
      intro g
      rw [if_neg (by simp)]
      rfl
  | cons r0 roles ih =>
      intro g
      rw [commitWrite, ih, lookupG_writeRes]
      by_cases h1 : r' = r0 <;> by_cases h2 : r' ∈ roles <;>
        by_cases h3 : res' ∈ ress <;> by_cases h4 : k' = k <;>
          simp [h1, h2, h3, h4]

theorem writeRes_id (r k : String) (v : List String) (ress : List String) :
    ∀ g, (∀ res ∈ ress, lookupG g r res k = some v) →
      writeRes r k v g ress = g := by
  induction ress with
  | nil => intro g _; rfl
  | cons res0 ress ih =>
      intro g h
      rw [writeRes, setGrant_self g r res0 k v (h res0 (List.mem_cons_self _ _))]
      exact ih g (fun res hres => h res (List.mem_cons_of_mem _ hres))

theorem commitWrite_id (k : String) (v : List String) (ress : List String)
    (roles : List String) :
    ∀ g, (∀ r ∈ roles, ∀ res ∈ ress, lookupG g r res k = some v) →
      commitWrite k v ress g roles = g := by
  induction roles with
  | nil => intro g _; rfl
  | cons r0 roles ih =>
      intro g h
      rw [commitWrite, writeRes_id r0 k v ress g (h r0 (List.mem_cons_self _ _))]
      exact ih g (fun r hr => h r (List.mem_cons_of_mem _ hr))

theorem commitToGrants_ok_inv (st : ACState) (info : AccessInfo) (strict : Bool)
    (st' : ACState) (ro res : StrOrArr) (a : Action) (p : Possession)
    (hro : info.role = some ro) (hres : info.resource = some res)
    (ha : info.action = some a) (hp : info.possession = some p)
    (h : commitToGrants st info strict = .ok st') :
    (validSA ro && validSA res && (!strict || info.attributes.isSome)) = true ∧
      st' = { st with
              grants := commitWrite (apKey a p) (effAttrs info)
                          (toStringArray res) st.grants (toStringArray ro) } := by
  unfold commitToGrants at h
  rw [hro, hres, ha, hp] at h
  have h' : (if (validSA ro && validSA res && (!strict || info.attributes.isSome)) = true
      then (Except.ok { st with
              grants := commitWrite (apKey a p) (effAttrs info)
                          (toStringArray res) st.grants (toStringArray ro) } :
              Except AccessError ACState)
      else .error .invalidGrant) = .ok st' := h
  by_cases hv : (validSA ro && validSA res && (!strict || info.attributes.isSome)) = true
  · rw [if_pos hv] at h'
    exact ⟨hv, (Except.ok.inj h').symm⟩
  · rw [if_neg hv] at h'
    exact absurd h' (by simp)

/-! ## Query-fold lemmas -/

theorem unionAttrs_nil_right (acc : List String) : unionAttrs acc [] = dedupKeep [] acc := by
  rw [unionAttrs, List.append_nil]

theorem queryFold_all_none (g : Grants) (res k : String) (L : List String) :
    ∀ acc, (∀ r ∈ L, lookupG g r res k = none) →
      queryFold g res k acc L = acc := by
  induction L with
  | nil => intro acc _; rfl
  | cons r0 L ih =>
      intro acc h
      rw [queryFold, h r0 (List.mem_cons_self _ _)]
      exact ih acc (fun r hr => h r (List.mem_cons_of_mem _ hr))

theorem queryFold_all_empty (g : Grants) (res k : String) (L : List String)
    (h : ∀ r ∈ L, lookupG g r res k = none ∨ lookupG g r res k = some []) :
    queryFold g res k [] L = [] := by
  induction L with
  | nil => rfl
  | cons r0 L ih =>
      rw [queryFold]
      rcases h r0 (List.mem_cons_self _ _) with h0 | h0 <;> rw [h0]
      · exact ih (fun r hr => h r (List.mem_cons_of_mem _ hr))
      · show queryFold g res k (unionAttrs [] []) L = []
        exact ih (fun r hr => h r (List.mem_cons_of_mem _ hr))

theorem queryFold_star_keep (g : Grants) (res k : String) (L : List String) :
    (∀ r ∈ L, lookupG g r res k = none ∨ lookupG g r res k = some ["*"]) →
      queryFold g res k ["*"] L = ["*"] := by
  induction L with
  | nil => intro _; rfl
  | cons r0 L ih =>
      intro h
      rw [queryFold]
      rcases h r0 (List.mem_cons_self _ _) with h0 | h0 <;> rw [h0]
      · exact ih (fun r hr => h r (List.mem_cons_of_mem _ hr))
      · show queryFold g res k (unionAttrs ["*"] ["*"]) L = ["*"]
        have : unionAttrs ["*"] ["*"] = ["*"] := rfl
        rw [this]
        exact ih (fun r hr => h r (List.mem_cons_of_mem _ hr))

theorem queryFold_star (g : Grants) (res k : String) (L : List String)
    (h : ∀ r ∈ L, lookupG g r res k = none ∨ lookupG g r res k = some ["*"])
    (hex : ∃ r ∈ L, lookupG g r res k = some ["*"]) :
    queryFold g res k [] L = ["*"] := by
  induction L with
  | nil => simp at hex
  | cons r0 L ih =>
      rw [queryFold]
      rcases h r0 (List.mem_cons_self _ _) with h0 | h0 <;> rw [h0]
      · obtain ⟨r, hr, hsome⟩ := hex
        rcases List.mem_cons.mp hr with he | hm
        · subst he; rw [h0] at hsome; simp at hsome
        · exact ih (fun r' hr' => h r' (List.mem_cons_of_mem _ hr'))
            ⟨r, hm, hsome⟩
      · show queryFold g res k (unionAttrs [] ["*"]) L = ["*"]
        have : unionAttrs [] ["*"] = ["*"] := rfl
        rw [this]
        exact queryFold_star_keep g res k L
          (fun r hr => h r (List.mem_cons_of_mem _ hr))

/-! ## Cycle-detection lemmas

Adding the complete set of (role, target) edges to an edge relation `rel`
yields the union relation `rel ∪ (rs × ts)`.  Any cycle of the union that is
not already a cycle of `rel` must pass through a new edge, and from the
target of that edge a pure-`rel` path must lead back into `rs` — which is
exactly what the pre-insertion reachability check of `addEdge` looks for. -/

theorem mem_succOf_addAllEdges (ts rs : List String) :
    ∀ es x y, y ∈ succOf (addAllEdges ts es rs) x ↔
      y ∈ succOf es x ∨ (x ∈ rs ∧ y ∈ ts) := by
  induction rs with
  | nil => intro es x y; simp [addAllEdges]
  | cons r0 rs ih =>
      intro es x y
      rw [addAllEdges, ih]
      have hs : succOf (insertA es r0 (succOf es r0 ++ ts)) x
          = if x = r0 then succOf es r0 ++ ts else succOf es x := by
        unfold succOf
        rw [lookupA_insertA]
        by_cases hx : x = r0
        · rw [if_pos hx, if_pos hx, Option.getD_some]
        · rw [if_neg hx, if_neg hx]
      rw [hs]
      by_cases hx : x = r0
      · rw [if_pos hx]
        subst hx
        constructor
        · rintro (h | h)
          · rcases List.mem_append.mp h with h | h
            · exact Or.inl h
            · exact Or.inr ⟨List.mem_cons_self _ _, h⟩
          · exact Or.inr ⟨List.mem_cons_self _ _, h.2⟩
        · rintro (h | ⟨h1, h2⟩)
          · exact Or.inl (List.mem_append.mpr (Or.inl h))
          · exact Or.inl (List.mem_append.mpr (Or.inr h2))
      · rw [if_neg hx]
        constructor
        · rintro (h | ⟨h1, h2⟩)
          · exact Or.inl h
          · exact Or.inr ⟨List.mem_cons_of_mem _ h1, h2⟩
        · rintro (h | ⟨h1, h2⟩)
          · exact Or.inl h
          · rcases List.mem_cons.mp h1 with he | hm
            · exact absurd he hx
            · exact Or.inr ⟨hm, h2⟩

theorem rtg_union_split (rel : String → String → Prop) (rs ts : List String)
    {b a : String}
    (h : Relation.ReflTransGen (fun x y => rel x y ∨ (x ∈ rs ∧ y ∈ ts)) b a) :
    (∃ r ∈ rs, Relation.ReflTransGen rel b r) ∨ Relation.ReflTransGen rel b a := by
  induction h using Relation.ReflTransGen.head_induction_on with
  | refl => exact Or.inr Relation.ReflTransGen.refl
  | head hstep _ ih =>
      rcases hstep with hold | ⟨hxr, _⟩
      · rcases ih with ⟨r, hr, hrtg⟩ | hrtg
        · exact Or.inl ⟨r, hr, Relation.ReflTransGen.head hold hrtg⟩
        · exact Or.inr (Relation.ReflTransGen.head hold hrtg)
      · exact Or.inl ⟨_, hxr, Relation.ReflTransGen.refl⟩

theorem tg_union_split (rel : String → String → Prop) (rs ts : List String)
    {x y : String}
    (h : Relation.TransGen (fun x y => rel x y ∨ (x ∈ rs ∧ y ∈ ts)) x y) :
    Relation.TransGen rel x y ∨
      ∃ r ∈ rs, ∃ t ∈ ts,
        Relation.ReflTransGen (fun x y => rel x y ∨ (x ∈ rs ∧ y ∈ ts)) x r ∧
          Relation.ReflTransGen (fun x y => rel x y ∨ (x ∈ rs ∧ y ∈ ts)) t y := by
  induction h with
  | single hstep =>
      rcases hstep with hold | ⟨hxr, hyt⟩
      · exact Or.inl (Relation.TransGen.single hold)
      · exact Or.inr ⟨x, hxr, _, hyt, Relation.ReflTransGen.refl,
          Relation.ReflTransGen.refl⟩
  | tail hxb hstep ih =>
      rcases hstep with hold | ⟨hbr, hct⟩
      · rcases ih with htg | ⟨r, hr, t, ht, hxr, htb⟩
        · exact Or.inl (Relation.TransGen.tail htg hold)
        · exact Or.inr ⟨r, hr, t, ht, hxr, htb.tail (Or.inl hold)⟩
      · exact Or.inr ⟨_, hbr, _, hct, hxb.to_reflTransGen,
          Relation.ReflTransGen.refl⟩

theorem rel_nil (x y : String) : ¬ Rel ([] : List (String × List String)) x y := by
  intro h
  simp [Rel, succOf, lookupA] at h

theorem not_transGen_nil (x y : String) :
    ¬ Relation.TransGen (Rel ([] : List (String × List String))) x y := by
  intro h
  induction h with
  | single h' => exact rel_nil _ _ h'
  | tail _ h' _ => exact rel_nil _ _ h'

theorem commitToGrants_missing (st : ACState) (info : AccessInfo) (strict : Bool)
    (h : info.role = none ∨ info.resource = none ∨ info.action = none ∨
      info.possession = none) :
    commitToGrants st info strict = .error .invalidGrant := by
  unfold commitToGrants
  cases hro : info.role with
  | none => rfl
  | some ro =>
  cases hres : info.resource with
  | none => rfl
  | some res =>
  cases ha : info.action with
  | none => rfl
  | some a =>
  cases hp : info.possession with
  | none => rfl
  | some p =>
  rw [hro, hres, ha, hp] at h
  simp at h

theorem commitToGrants_fields (st : ACState) (info : AccessInfo) (strict : Bool)
    (ro res : StrOrArr) (a : Action) (p : Possession)
    (hro : info.role = some ro) (hres : info.resource = some res)
    (ha : info.action = some a) (hp : info.possession = some p) :
    commitToGrants st info strict =
      if validSA ro && validSA res && (!strict || info.attributes.isSome) then
        .ok { st with
              grants := commitWrite (apKey a p) (effAttrs info)
                          (toStringArray res) st.grants (toStringArray ro) }
      else .error .invalidGrant := by
  unfold commitToGrants
  rw [hro, hres, ha, hp]

/-- C1 (amended): a grant entry committed with `denied = true` stores the
empty attribute list under every expanded (role, resource) pair regardless
of any supplied attributes, and a subsequent query for that exact (role,
resource, action, possession) returns `[]` provided every role in the
queried role's closure contributes no attributes for that key (no entry, or
an empty one).  Roles inherited via extend can still contribute attributes,
so the query does not return `[]` unconditionally — see the
counterexample. -/
theorem C1_deny_commit_empty (st : ACState) (info : AccessInfo) (strict : Bool)
    (st' : ACState) (ro res : StrOrArr) (a : Action) (p : Possession)
    (hden : info.denied = true)
    (hro : info.role = some ro) (hres : info.resource = some res)
    (ha : info.action = some a) (hp : info.possession = some p)
    (h : commitToGrants st info strict = .ok st') :
    (∀ r ∈ toStringArray ro, ∀ rs ∈ toStringArray res,
      lookupG st'.grants r rs (apKey a p) = some []) ∧
    (∀ R ∈ toStringArray ro, ∀ rs ∈ toStringArray res,
      (∀ r' ∈ closureL st'.edges [R],
        lookupG st'.grants r' rs (apKey a p) = none ∨
          lookupG st'.grants r' rs (apKey a p) = some []) →
      queryAttrs st' [R] rs a p = []) := by
  obtain ⟨hv, hst'⟩ :=
    commitToGrants_ok_inv st info strict st' ro res a p hro hres ha hp h
  have heff : effAttrs info = [] := by simp [effAttrs, hden]
  constructor
  · intro r hr rs hrs
    rw [hst']
    show lookupG (commitWrite (apKey a p) (effAttrs info) (toStringArray res)
      st.grants (toStringArray ro)) r rs (apKey a p) = some []
    rw [lookupG_commitWrite, if_pos ⟨hr, hrs, rfl⟩, heff]
  · intro R hR rs hrs hcond
    exact queryFold_all_empty st'.grants rs (apKey a p)
      (closureL st'.edges [R]) hcond

/-- Witness for C1: denying `user` on `(video, READ, ANY)` with attributes
`["x","y"]` supplied stores `[]`, and the query — with nothing else in the
closure — returns `[]`. -/
theorem C1_deny_commit_empty_witness :
    commitToGrants emptyAC
        ⟨some (.str "user"), some (.str "video"), some (.arr ["x", "y"]),
          some .read, some .any, true⟩ false =
      .ok ⟨[("user", [("video", [("read:any", [])])])], []⟩ ∧
    lookupG [("user", [("video", [("read:any", [])])])] "user" "video"
      (apKey .read .any) = some [] ∧
    queryAttrs ⟨[("user", [("video", [("read:any", [])])])], []⟩ ["user"]
      "video" .read .any = [] := by
  have hc : commitToGrants emptyAC
      ⟨some (.str "user"), some (.str "video"), some (.arr ["x", "y"]),
        some .read, some .any, true⟩ false =
      .ok ⟨[("user", [("video", [("read:any", [])])])], []⟩ := rfl
  have hT := C1_deny_commit_empty emptyAC
    ⟨some (.str "user"), some (.str "video"), some (.arr ["x", "y"]),
      some .read, some .any, true⟩ false
    ⟨[("user", [("video", [("read:any", [])])])], []⟩
    (.str "user") (.str "video") .read .any rfl rfl rfl rfl rfl hc
  exact ⟨hc, hT.1 "user" (by decide) "video" (by decide),
    hT.2 "user" (by decide) "video" (by decide) (by decide)⟩

/-- C1 counterexample: role `a` extends role `b`, which holds `["x"]` for
`(video, READ, ANY)`; a commit with `denied = true` for `a` on the same key
(attributes `["w"]` supplied to the denying call) still leads the subsequent
query for exactly `(["a"], video, READ, ANY)` to return `["x"]`, not `[]` —
the denied role inherits `b`'s attributes through the closure. -/
theorem C1_counterexample :
    ((commitToGrants emptyAC
          ⟨some (.str "b"), some (.str "video"), some (.arr ["x"]),
            some .read, some .any, false⟩ false).bind
        (fun st => extendRole st (.str "a") (.str "b"))).bind
      (fun st => commitToGrants st
        ⟨some (.str "a"), some (.str "video"), some (.arr ["w"]),
          some .read, some .any, true⟩ false) =
      .ok ⟨[("b", [("video", [("read:any", ["x"])])]),
            ("a", [("video", [("read:any", [])])])], [("a", ["b"])]⟩ ∧
    queryAttrs
      ⟨[("b", [("video", [("read:any", ["x"])])]),
        ("a", [("video", [("read:any", [])])])], [("a", ["b"])]⟩
      ["a"] "video" .read .any = ["x"] ∧
    (["x"] : List String) ≠ [] := by
  refine ⟨rfl, rfl, by decide⟩

/-- C3 (amended): a grant entry committed with `denied = false` and the
attributes omitted stores the default `["*"]` under every expanded (role,
resource) pair, and a subsequent query for that exact combination returns
`["*"]` provided every other role in the queried role's closure contributes
either nothing or `["*"]` for that key.  Roles inherited via extend can add
further attributes to the union, so the query does not return exactly
`["*"]` unconditionally — see the counterexample. -/
theorem C3_grant_default_star (st : ACState) (info : AccessInfo)
    (strict : Bool) (st' : ACState) (ro res : StrOrArr) (a : Action)
    (p : Possession)
    (hden : info.denied = false) (hattr : info.attributes = none)
    (hro : info.role = some ro) (hres : info.resource = some res)
    (ha : info.action = some a) (hp : info.possession = some p)
    (h : commitToGrants st info strict = .ok st') :
    (∀ r ∈ toStringArray ro, ∀ rs ∈ toStringArray res,
      lookupG st'.grants r rs (apKey a p) = some ["*"]) ∧
    (∀ R ∈ toStringArray ro, ∀ rs ∈ toStringArray res,
      (∀ r' ∈ closureL st'.edges [R],
        lookupG st'.grants r' rs (apKey a p) = none ∨
          lookupG st'.grants r' rs (apKey a p) = some ["*"]) →
      queryAttrs st' [R] rs a p = ["*"]) := by
  obtain ⟨hv, hst'⟩ :=
    commitToGrants_ok_inv st info strict st' ro res a p hro hres ha hp h
  have heff : effAttrs info = ["*"] := by simp [effAttrs, hden, hattr]
  have hstored : ∀ r ∈ toStringArray ro, ∀ rs ∈ toStringArray res,
      lookupG st'.grants r rs (apKey a p) = some ["*"] := by
    intro r hr rs hrs
    rw [hst']
    show lookupG (commitWrite (apKey a p) (effAttrs info) (toStringArray res)
      st.grants (toStringArray ro)) r rs (apKey a p) = some ["*"]
    rw [lookupG_commitWrite, if_pos ⟨hr, hrs, rfl⟩, heff]
  refine ⟨hstored, ?_⟩
  intro R hR rs hrs hcond
  exact queryFold_star st'.grants rs (apKey a p) (closureL st'.edges [R])
    hcond
    ⟨R, subset_closureL st'.edges [R] (List.mem_singleton.mpr rfl),
      hstored R hR rs hrs⟩

/-- Witness for C3: granting `user` on `(video, READ, ANY)` with attributes
omitted stores `["*"]`, and the query — with nothing else in the closure —
returns `["*"]`. -/
theorem C3_grant_default_star_witness :
    commitToGrants emptyAC
        ⟨some (.str "user"), some (.str "video"), none, some .read, some .any,
          false⟩ false =
      .ok ⟨[("user", [("video", [("read:any", ["*"])])])], []⟩ ∧
    lookupG [("user", [("video", [("read:any", ["*"])])])] "user" "video"
      (apKey .read .any) = some ["*"] ∧
    queryAttrs ⟨[("user", [("video", [("read:any", ["*"])])])], []⟩ ["user"]
      "video" .read .any = ["*"] := by
  have hc : commitToGrants emptyAC
      ⟨some (.str "user"), some (.str "video"), none, some .read, some .any,
        false⟩ false =
      .ok ⟨[("user", [("video", [("read:any", ["*"])])])], []⟩ := rfl
  have hT := C3_grant_default_star emptyAC
    ⟨some (.str "user"), some (.str "video"), none, some .read, some .any,
      false⟩ false
    ⟨[("user", [("video", [("read:any", ["*"])])])], []⟩
    (.str "user") (.str "video") .read .any rfl rfl rfl rfl rfl rfl hc
  exact ⟨hc, hT.1 "user" (by decide) "video" (by decide),
    hT.2 "user" (by decide) "video" (by decide) (by decide)⟩

/-- C3 counterexample: role `a` extends role `b`, which holds `["x"]` for
`(video, READ, ANY)`; a commit for `a` with `denied = false` and attributes
omitted stores `["*"]`, yet the subsequent query for exactly `(["a"], video,
READ, ANY)` returns the union `["*", "x"]`, not `["*"]`. -/
theorem C3_counterexample :
    ((commitToGrants emptyAC
          ⟨some (.str "b"), some (.str "video"), some (.arr ["x"]),
            some .read, some .any, false⟩ false).bind
        (fun st => extendRole st (.str "a") (.str "b"))).bind
      (fun st => commitToGrants st
        ⟨some (.str "a"), some (.str "video"), none, some .read, some .any,
          false⟩ false) =
      .ok ⟨[("b", [("video", [("read:any", ["x"])])]),
            ("a", [("video", [("read:any", ["*"])])])], [("a", ["b"])]⟩ ∧
    queryAttrs
      ⟨[("b", [("video", [("read:any", ["x"])])]),
        ("a", [("video", [("read:any", ["*"])])])], [("a", ["b"])]⟩
      ["a"] "video" .read .any = ["*", "x"] ∧
    (["*", "x"] : List String) ≠ ["*"] := by
  refine ⟨rfl, rfl, by decide⟩

theorem isEmpty_false_of_ne {s : String} (h : s ≠ "") : s.isEmpty = false := by
  rw [Bool.eq_false_iff]
  intro he
  exact h ((String.isEmpty_iff s).mp he)

/-- C5: if role `A` holds `["*", "!secret"]` for a resource/action/possession
key, `A` extends `B`, and `B` holds `["secret"]` for the same key, then the
query for `([A], resource, action, possession)` returns the union of the two
lists — concatenation with duplicate removal preserving first-seen order —
containing both of `A`'s patterns and `B`'s `"secret"`. -/
theorem C5_union_over_closure (A B res : String) (a : Action) (p : Possession)
    (hA : A ≠ "") (hB : B ≠ "") (hres : res ≠ "") (hAB : A ≠ B) :
    ((commitToGrants emptyAC
          ⟨some (.str A), some (.str res), some (.arr ["*", "!secret"]),
            some a, some p, false⟩ false).bind
        (fun st => extendRole st (.str A) (.str B))).bind
      (fun st => commitToGrants st
        ⟨some (.str B), some (.str res), some (.arr ["secret"]),
          some a, some p, false⟩ false) =
      .ok ⟨[(A, [(res, [(apKey a p, ["*", "!secret"])])]),
            (B, [(res, [(apKey a p, ["secret"])])])], [(A, [B])]⟩ ∧
    queryAttrs
      ⟨[(A, [(res, [(apKey a p, ["*", "!secret"])])]),
        (B, [(res, [(apKey a p, ["secret"])])])], [(A, [B])]⟩
      [A] res a p =
      unionAttrs (unionAttrs [] ["*", "!secret"]) ["secret"] ∧
    unionAttrs (unionAttrs [] ["*", "!secret"]) ["secret"] =
      ["*", "!secret", "secret"] := by
  have hAe := isEmpty_false_of_ne hA
  have hBe := isEmpty_false_of_ne hB
  have hresE := isEmpty_false_of_ne hres
  have hBA : B ≠ A := Ne.symm hAB
  have h1 : commitToGrants emptyAC
      ⟨some (.str A), some (.str res), some (.arr ["*", "!secret"]),
        some a, some p, false⟩ false =
      .ok ⟨[(A, [(res, [(apKey a p, ["*", "!secret"])])])], []⟩ := by
    rw [commitToGrants_fields emptyAC _ false (.str A) (.str res) a p
      rfl rfl rfl rfl]
    rw [if_pos (by simp [validSA, hAe, hresE])]
    rfl
  have h2 : extendRole ⟨[(A, [(res, [(apKey a p, ["*", "!secret"])])])], []⟩
      (.str A) (.str B) =
      .ok ⟨[(A, [(res, [(apKey a p, ["*", "!secret"])])])], [(A, [B])]⟩ := by
    show (if ∃ r ∈ toStringArray (.str A), ∃ t ∈ toStringArray (.str B),
            r = t ∨ r ∈ closureL [] [t]
          then (Except.error .cycleErr : Except AccessError ACState)
          else .ok ⟨[(A, [(res, [(apKey a p, ["*", "!secret"])])])],
                    addAllEdges (toStringArray (.str B)) []
                      (toStringArray (.str A))⟩) = _
    rw [if_neg ?_]
    · rfl
    · rintro ⟨r, hr, t, ht, hor⟩
      rw [List.mem_singleton.mp hr] at hor
      rw [List.mem_singleton.mp ht] at hor
      have hcB : closureL ([] : List (String × List String)) [B] = [B] := rfl
      rcases hor with he | hm
      · exact hAB he
      · rw [hcB] at hm
        exact hAB (List.mem_singleton.mp hm)
  have h3 : commitToGrants
      ⟨[(A, [(res, [(apKey a p, ["*", "!secret"])])])], [(A, [B])]⟩
      ⟨some (.str B), some (.str res), some (.arr ["secret"]),
        some a, some p, false⟩ false =
      .ok ⟨[(A, [(res, [(apKey a p, ["*", "!secret"])])]),
            (B, [(res, [(apKey a p, ["secret"])])])], [(A, [B])]⟩ := by
    rw [commitToGrants_fields _ _ false (.str B) (.str res) a p
      rfl rfl rfl rfl]
    rw [if_pos (by simp [validSA, hBe, hresE])]
    simp [commitWrite, writeRes, setGrant, insertA, lookupA, effAttrs,
      toStringArray, hAB]
  refine ⟨?_, ?_, rfl⟩
  · rw [h1]
    show (extendRole ⟨[(A, [(res, [(apKey a p, ["*", "!secret"])])])], []⟩
        (.str A) (.str B)).bind
      (fun st => commitToGrants st
        ⟨some (.str B), some (.str res), some (.arr ["secret"]),
          some a, some p, false⟩ false) = _
    rw [h2]
    exact h3
  · have hcl : closureL [(A, [B])] [A] = [A, B] := by
      simp [closureL, boundK, allTargets, iterStep, stepC, newSuccs,
        newSuccsAux, addNew, succOf, lookupA, hAB, hBA]
    show queryFold _ res (apKey a p) []
      (closureL [(A, [B])] [A]) = _
    rw [hcl]
    simp [queryFold, lookupG, lookupA, hAB, hBA]

/-- Witness for C5: `editor` holds `["*", "!secret"]`, extends `user`, which
holds `["secret"]`, for `(video, CREATE, OWN)`; the query for `editor`
returns `["*", "!secret", "secret"]`. -/
theorem C5_union_over_closure_witness :
    ("editor" ≠ "") ∧ ("user" ≠ "") ∧ ("video" ≠ "") ∧
    ("editor" ≠ "user") ∧
    queryAttrs
      ⟨[("editor", [("video", [(apKey .create .own, ["*", "!secret"])])]),
        ("user", [("video", [(apKey .create .own, ["secret"])])])],
        [("editor", ["user"])]⟩
      ["editor"] "video" .create .own = ["*", "!secret", "secret"] := by
  have hT := C5_union_over_closure "editor" "user" "video" .create .own
    (by decide) (by decide) (by decide) (by decide)
  exact ⟨by decide, by decide, by decide, by decide, hT.2.1.trans hT.2.2⟩

/-- C4: a query whose role closure contains no role with a committed entry
for the given (resource, action, possession) returns the empty list; the
query operation is total, so no error is raised. -/
theorem C4_query_unmatched_empty (st : ACState) (roles : List String)
    (res : String) (a : Action) (p : Possession)
    (h : ∀ r ∈ closureL st.edges roles,
      lookupG st.grants r res (apKey a p) = none) :
    queryAttrs st roles res a p = [] :=
  queryFold_all_none st.grants res (apKey a p) (closureL st.edges roles) [] h

/-- Witness for C4: querying `(["guest"], "video", DELETE, ANY)` on the empty
state, where no grant was ever committed, yields `[]`. -/
theorem C4_query_unmatched_empty_witness :
    (∀ r ∈ closureL emptyAC.edges ["guest"],
      lookupG emptyAC.grants r "video" (apKey .delete .any) = none) ∧
      queryAttrs emptyAC ["guest"] "video" .delete .any = [] := by
  have h : ∀ r ∈ closureL emptyAC.edges ["guest"],
      lookupG emptyAC.grants r "video" (apKey .delete .any) = none := by decide
  exact ⟨h, C4_query_unmatched_empty emptyAC ["guest"] "video" .delete .any h⟩

/-- C7: a commit whose role, resource, action or possession is missing or not
a non-empty string / non-empty string sequence fails with
`InvalidGrantError`; since the failing call returns no state, nothing is
written into the grant store and the failure is raised at the call itself,
not at query time. -/
theorem C7_commit_invalid_grant (st : ACState) (info : AccessInfo)
    (strict : Bool)
    (h : validRR info.role = false ∨ validRR info.resource = false ∨
      info.action = none ∨ info.possession = none) :
    commitToGrants st info strict = .error .invalidGrant := by
  cases hro : info.role with
  | none => exact commitToGrants_missing st info strict (Or.inl hro)
  | some ro =>
  cases hres : info.resource with
  | none => exact commitToGrants_missing st info strict (Or.inr (Or.inl hres))
  | some res =>
  cases ha : info.action with
  | none =>
      exact commitToGrants_missing st info strict (Or.inr (Or.inr (Or.inl ha)))
  | some a =>
  cases hp : info.possession with
  | none =>
      exact commitToGrants_missing st info strict (Or.inr (Or.inr (Or.inr hp)))
  | some p =>
  rw [commitToGrants_fields st info strict ro res a p hro hres ha hp]
  rw [hro, hres, ha, hp] at h
  rcases h with h | h | h | h
  · rw [if_neg (by simp [show validSA ro = false from h])]
  · rw [if_neg (by simp [show validSA res = false from h])]
  · simp at h
  · simp at h

/-- Witness for C7: committing an info object with no role set fails with
`InvalidGrantError`. -/
theorem C7_commit_invalid_grant_witness :
    (validRR infoNone.role = false ∨ validRR infoNone.resource = false ∨
      infoNone.action = none ∨ infoNone.possession = none) ∧
      commitToGrants emptyAC infoNone false = .error .invalidGrant :=
  ⟨Or.inl rfl,
    C7_commit_invalid_grant emptyAC infoNone false (Or.inl rfl)⟩

/-- C8: committing the same grant entry twice is idempotent — the second
commit succeeds and returns the very same state, so every query on the twice-
committed state yields exactly the same result as on the once-committed
state (the repeated key is overwritten with the same attribute list). -/
theorem C8_commit_idempotent (st : ACState) (info : AccessInfo) (strict : Bool)
    (st' : ACState) (h : commitToGrants st info strict = .ok st') :
    commitToGrants st' info strict = .ok st' := by
  cases hro : info.role with
  | none =>
      rw [commitToGrants_missing st info strict (Or.inl hro)] at h
      exact absurd h (by simp)
  | some ro =>
  cases hres : info.resource with
  | none =>
      rw [commitToGrants_missing st info strict (Or.inr (Or.inl hres))] at h
      exact absurd h (by simp)
  | some res =>
  cases ha : info.action with
  | none =>
      rw [commitToGrants_missing st info strict (Or.inr (Or.inr (Or.inl ha)))] at h
      exact absurd h (by simp)
  | some a =>
  cases hp : info.possession with
  | none =>
      rw [commitToGrants_missing st info strict (Or.inr (Or.inr (Or.inr hp)))] at h
      exact absurd h (by simp)
  | some p =>
  obtain ⟨hv, hst'⟩ :=
    commitToGrants_ok_inv st info strict st' ro res a p hro hres ha hp h
  rw [commitToGrants_fields st' info strict ro res a p hro hres ha hp,
    if_pos hv]
  have hcw : commitWrite (apKey a p) (effAttrs info) (toStringArray res)
      st'.grants (toStringArray ro) = st'.grants := by
    apply commitWrite_id
    intro r hr res' hres'
    rw [hst']
    show lookupG (commitWrite (apKey a p) (effAttrs info) (toStringArray res)
      st.grants (toStringArray ro)) r res' (apKey a p) = some (effAttrs info)
    rw [lookupG_commitWrite, if_pos ⟨hr, hres', rfl⟩]
  rw [hcw]

theorem isInfoFulfilled_reset (i : AccessInfo) (d : Bool) :
    isInfoFulfilled (resetAttributes { i with denied := d }) =
      (i.action.isSome && i.resource.isSome) := by
  cases d <;> cases h : i.attributes <;>
    simp [resetAttributes, isInfoFulfilled, h]

theorem accessNew_info (st : ACState) (i : AccessInfo) (d : Bool) :
    accessNew st (.info i) d =
      if isInfoFulfilled (resetAttributes { i with denied := d }) then
        match commitToGrants st (resetAttributes { i with denied := d }) true with
        | .ok st2 => (.ok ⟨st2, resetAttributes { i with denied := d }⟩,
            resetAttributes { i with denied := d })
        | .error e => (.error e, resetAttributes { i with denied := d })
      else (.ok ⟨st, resetAttributes { i with denied := d }⟩,
        resetAttributes { i with denied := d }) := rfl

theorem prepareAndCommit_ok_inv (a : Access) (act : Action) (p : Possession)
    (resource attrs : Option StrOrArr) (b : Access)
    (h : a.prepareAndCommit act p resource attrs = .ok b) :
    commitToGrants a.grants (prepInfo a.info act p resource attrs) false =
      .ok b.grants ∧
    b.info = { prepInfo a.info act p resource attrs with attributes := none } := by
  unfold Access.prepareAndCommit at h
  cases hc : commitToGrants a.grants (prepInfo a.info act p resource attrs) false with
  | ok st2 =>
      rw [hc] at h
      have hb := Except.ok.inj h
      rw [← hb]
      exact ⟨rfl, rfl⟩
  | error e =>
      rw [hc] at h
      exact absurd h (by simp)

theorem prepInfo_omitted (i : AccessInfo) (act2 : Action) (p2 : Possession)
    (res2 : String) (hres2 : res2.isEmpty = false) (hattr : i.attributes = none) :
    prepInfo i act2 p2 (some (.str res2)) none =
      { i with action := some act2, possession := some p2,
               resource := some (.str res2),
               attributes := some (.arr (if i.denied then [] else ["*"])) } := by
  by_cases hd : i.denied <;>
    simp [prepInfo, truthy, hres2, hattr, hd]

theorem prepInfo_omitted_all (i : AccessInfo) (act2 : Action) (p2 : Possession)
    (hattr : i.attributes = none) :
    prepInfo i act2 p2 none none =
      { i with action := some act2, possession := some p2,
               attributes := some (.arr (if i.denied then [] else ["*"])) } := by
  by_cases hd : i.denied <;> simp [prepInfo, truthy, hattr, hd]

/-- C9: constructing an `Access` builder from an info object commits the
entry with `strict = true` immediately during construction if and only if
the object is fulfilled (has action and resource defined): an unfulfilled
object leaves the grants unchanged, and a fulfilled object's construction
result is exactly the result of the strict commit. -/
theorem C9_ctor_commits_iff_fulfilled (st : ACState) (i : AccessInfo)
    (d : Bool) :
    ((i.action.isSome && i.resource.isSome) = false →
      (accessNew st (.info i) d).1 =
        .ok ⟨st, resetAttributes { i with denied := d }⟩) ∧
    ((i.action.isSome && i.resource.isSome) = true →
      ∀ st2, commitToGrants st (resetAttributes { i with denied := d }) true =
          .ok st2 →
        (accessNew st (.info i) d).1 =
          .ok ⟨st2, resetAttributes { i with denied := d }⟩) ∧
    ((i.action.isSome && i.resource.isSome) = true →
      ∀ e, commitToGrants st (resetAttributes { i with denied := d }) true =
          .error e →
        (accessNew st (.info i) d).1 = .error e) := by
  refine ⟨?_, ?_, ?_⟩
  · intro hnf
    rw [accessNew_info, if_neg (by rw [isInfoFulfilled_reset]; simp [hnf])]
  · intro hf st2 hc
    rw [accessNew_info, if_pos (by rw [isInfoFulfilled_reset]; exact hf), hc]
  · intro hf e hc
    rw [accessNew_info, if_pos (by rw [isInfoFulfilled_reset]; exact hf), hc]

/-- Witness for C9: an info object with a role but no action set is not
fulfilled, and constructing from it commits nothing — the grants state is
returned unchanged. -/
theorem C9_ctor_commits_iff_fulfilled_witness :
    ((AccessInfo.mk (some (.str "x")) none none none none false).action.isSome &&
      (AccessInfo.mk (some (.str "x")) none none none none
        false).resource.isSome) = false ∧
    (accessNew emptyAC (.info ⟨some (.str "x"), none, none, none, none, false⟩)
        false).1 =
      .ok ⟨emptyAC,
        resetAttributes
          { AccessInfo.mk (some (.str "x")) none none none none false with
            denied := false }⟩ :=
  ⟨rfl,
    (C9_ctor_commits_iff_fulfilled emptyAC
      ⟨some (.str "x"), none, none, none, none, false⟩ false).1 rfl⟩

/-- C6: on every successful terminal commit the builder's transient
attributes field is cleared, and a later terminal call on the same builder
instance with attributes omitted — whether the resource is supplied to the
call or inherited from the builder — applies the attribute-defaulting rule
afresh: the stored list is `["*"]` when the builder is not denied and `[]`
when it is denied, never the attribute list explicitly supplied to the
earlier terminal call. -/
theorem C6_terminal_commit_defaults (a : Access) (act : Action)
    (p : Possession) (resource attrs : Option StrOrArr) (b : Access)
    (h : a.prepareAndCommit act p resource attrs = .ok b) :
    b.info.attributes = none ∧
    (∀ (act2 : Action) (p2 : Possession) (res2 : String) (c : Access)
      (ro : StrOrArr),
      res2.isEmpty = false →
      b.info.role = some ro →
      b.prepareAndCommit act2 p2 (some (.str res2)) none = .ok c →
      ∀ r ∈ toStringArray ro,
        lookupG c.grants.grants r res2 (apKey act2 p2) =
          some (if b.info.denied then [] else ["*"])) ∧
    (∀ (act2 : Action) (p2 : Possession) (c : Access) (ro resb : StrOrArr),
      b.info.role = some ro →
      b.info.resource = some resb →
      b.prepareAndCommit act2 p2 none none = .ok c →
      ∀ r ∈ toStringArray ro, ∀ res' ∈ toStringArray resb,
        lookupG c.grants.grants r res' (apKey act2 p2) =
          some (if b.info.denied then [] else ["*"])) := by
  obtain ⟨hc1, hbinfo⟩ := prepareAndCommit_ok_inv a act p resource attrs b h
  have hattr : b.info.attributes = none := by rw [hbinfo]
  refine ⟨hattr, ?_, ?_⟩
  · intro act2 p2 res2 c ro hres2 hro h2
    obtain ⟨hc2, _⟩ :=
      prepareAndCommit_ok_inv b act2 p2 (some (.str res2)) none c h2
    rw [prepInfo_omitted b.info act2 p2 res2 hres2 hattr] at hc2
    obtain ⟨hv, hcg⟩ := commitToGrants_ok_inv b.grants
      { b.info with action := some act2, possession := some p2,
                    resource := some (.str res2),
                    attributes :=
                      some (.arr (if b.info.denied then [] else ["*"])) }
      false c.grants ro (.str res2) act2 p2 hro rfl rfl rfl hc2
    have heff : effAttrs
        { b.info with action := some act2, possession := some p2,
                      resource := some (.str res2),
                      attributes :=
                        some (.arr (if b.info.denied then [] else ["*"])) } =
        (if b.info.denied then [] else ["*"]) := by
      by_cases hd : b.info.denied <;> simp [effAttrs, hd, toStringArray]
    intro r hr
    rw [hcg]
    show lookupG
      (commitWrite (apKey act2 p2)
        (effAttrs
          { b.info with action := some act2, possession := some p2,
                        resource := some (.str res2),
                        attributes :=
                          some (.arr (if b.info.denied then [] else ["*"])) })
        (toStringArray (.str res2)) b.grants.grants (toStringArray ro))
      r res2 (apKey act2 p2) = some (if b.info.denied then [] else ["*"])
    rw [lookupG_commitWrite, if_pos ⟨hr, List.mem_singleton.mpr rfl, rfl⟩, heff]
  · intro act2 p2 c ro resb hro hresb h2
    obtain ⟨hc2, _⟩ := prepareAndCommit_ok_inv b act2 p2 none none c h2
    rw [prepInfo_omitted_all b.info act2 p2 hattr] at hc2
    obtain ⟨hv, hcg⟩ := commitToGrants_ok_inv b.grants
      { b.info with action := some act2, possession := some p2,
                    attributes :=
                      some (.arr (if b.info.denied then [] else ["*"])) }
      false c.grants ro resb act2 p2 hro hresb rfl rfl hc2
    have heff : effAttrs
        { b.info with action := some act2, possession := some p2,
                      attributes :=
                        some (.arr (if b.info.denied then [] else ["*"])) } =
        (if b.info.denied then [] else ["*"]) := by
      by_cases hd : b.info.denied <;> simp [effAttrs, hd, toStringArray]
    intro r hr res' hres'
    rw [hcg]
    show lookupG
      (commitWrite (apKey act2 p2)
        (effAttrs
          { b.info with action := some act2, possession := some p2,
                        attributes :=
                          some (.arr (if b.info.denied then [] else ["*"])) })
        (toStringArray resb) b.grants.grants (toStringArray ro))
      r res' (apKey act2 p2) = some (if b.info.denied then [] else ["*"])
    rw [lookupG_commitWrite, if_pos ⟨hr, hres', rfl⟩, heff]

/-- Witness for C6: the builder for role `user` commits `createOwn("video",
["title"])`; its attributes field is cleared, and a later
`readAny("video")` with attributes omitted stores the default `["*"]`, not
`["title"]`. -/
theorem C6_terminal_commit_defaults_witness :
    c6A.prepareAndCommit .create .own (some (.str "video"))
        (some (.arr ["title"])) = .ok c6B ∧
    c6B.info.attributes = none ∧
    "video".isEmpty = false ∧
    c6B.info.role = some (.str "user") ∧
    c6B.prepareAndCommit .read .any (some (.str "video")) none = .ok c6C ∧
    lookupG c6C.grants.grants "user" "video" (apKey .read .any) =
      some ["*"] := by
  have h1 : c6A.prepareAndCommit .create .own (some (.str "video"))
      (some (.arr ["title"])) = .ok c6B := rfl
  have h2 : c6B.prepareAndCommit .read .any (some (.str "video")) none =
      .ok c6C := rfl
  have hT := C6_terminal_commit_defaults c6A .create .own
    (some (.str "video")) (some (.arr ["title"])) c6B h1
  exact ⟨h1, hT.1, rfl, rfl, h2,
    hT.2.1 .read .any "video" c6C (.str "user") rfl rfl h2 "user"
      (List.mem_singleton.mpr rfl)⟩

/-- Witness for C8: committing a read-any grant for `user` on `video` twice
gives the same state as committing it once. -/
theorem C8_commit_idempotent_witness :
    commitToGrants emptyAC
        ⟨some (.str "user"), some (.str "video"), none, some .read, some .any,
          false⟩ false =
      .ok ⟨[("user", [("video", [("read:any", ["*"])])])], []⟩ ∧
    commitToGrants ⟨[("user", [("video", [("read:any", ["*"])])])], []⟩
        ⟨some (.str "user"), some (.str "video"), none, some .read, some .any,
          false⟩ false =
      .ok ⟨[("user", [("video", [("read:any", ["*"])])])], []⟩ :=
  ⟨rfl,
    C8_commit_idempotent emptyAC
      ⟨some (.str "user"), some (.str "video"), none, some .read, some .any,
        false⟩ false
      ⟨[("user", [("video", [("read:any", ["*"])])])], []⟩ rfl⟩

/-- C2: for every role `R` and every extend call that would make `R`
reachable from itself through at least one edge (direct self-extension and
transitive cycles included) while `R` is not already on a cycle, the extend
operation fails with `CycleError`; since it returns an error and no state, no
mutation of the role graph or the grant store is applied. -/
theorem C2_extend_cycle_error (st : ACState) (roles targets : StrOrArr)
    (R : String)
    (hacyc : ¬ Relation.TransGen (Rel st.edges) R R)
    (hcyc : Relation.TransGen
      (Rel (addAllEdges (toStringArray targets) st.edges (toStringArray roles)))
      R R) :
    extendRole st roles targets = .error .cycleErr := by
  have hcycU : Relation.TransGen
      (fun x y => Rel st.edges x y ∨
        (x ∈ toStringArray roles ∧ y ∈ toStringArray targets)) R R := by
    refine Relation.TransGen.mono ?_ hcyc
    intro a b hab
    exact (mem_succOf_addAllEdges (toStringArray targets) (toStringArray roles)
      st.edges a b).mp hab
  rcases tg_union_split (Rel st.edges) (toStringArray roles)
      (toStringArray targets) hcycU with hOld | ⟨r0, hr0, t0, ht0, hRr0, htR⟩
  · exact absurd hOld hacyc
  · have hta : Relation.ReflTransGen
        (fun x y => Rel st.edges x y ∨
          (x ∈ toStringArray roles ∧ y ∈ toStringArray targets)) t0 r0 :=
      htR.trans hRr0
    have hcond : ∃ r ∈ toStringArray roles, ∃ t ∈ toStringArray targets,
        r = t ∨ r ∈ closureL st.edges [t] := by
      rcases rtg_union_split (Rel st.edges) (toStringArray roles)
          (toStringArray targets) hta with ⟨r1, hr1, hrtg⟩ | hrtg
      · exact ⟨r1, hr1, t0, ht0, Or.inr
          (mem_closureL_complete st.edges [t0] (List.mem_singleton.mpr rfl) hrtg)⟩
      · exact ⟨r0, hr0, t0, ht0, Or.inr
          (mem_closureL_complete st.edges [t0] (List.mem_singleton.mpr rfl) hrtg)⟩
    show (if ∃ r ∈ toStringArray roles, ∃ t ∈ toStringArray targets,
            r = t ∨ r ∈ closureL st.edges [t]
          then (Except.error .cycleErr : Except AccessError ACState)
          else .ok { st with
                     edges := addAllEdges (toStringArray targets) st.edges
                                (toStringArray roles) }) = .error .cycleErr
    rw [if_pos hcond]

/-- Witness for C2: the direct self-extension `extend("a", "a")` on the empty
state satisfies the hypotheses and fails with `CycleError`. -/
theorem C2_extend_cycle_error_witness :
    (¬ Relation.TransGen (Rel emptyAC.edges) "a" "a") ∧
      Relation.TransGen
        (Rel (addAllEdges (toStringArray (.str "a")) emptyAC.edges
          (toStringArray (.str "a")))) "a" "a" ∧
      extendRole emptyAC (.str "a") (.str "a") = .error .cycleErr := by
  have h1 : ¬ Relation.TransGen (Rel emptyAC.edges) "a" "a" :=
    not_transGen_nil "a" "a"
  have h2 : Relation.TransGen
      (Rel (addAllEdges (toStringArray (.str "a")) emptyAC.edges
        (toStringArray (.str "a")))) "a" "a" :=
    Relation.TransGen.single
      (show "a" ∈ succOf (addAllEdges (toStringArray (.str "a")) emptyAC.edges
        (toStringArray (.str "a"))) "a" by decide)
  exact ⟨h1, h2, C2_extend_cycle_error emptyAC (.str "a") (.str "a") "a" h1 h2⟩

theorem accessNew_info_snd (st : ACState) (i : AccessInfo) (d : Bool) :
    (accessNew st (.info i) d).2 = resetAttributes { i with denied := d } := by
  rw [accessNew_info]
  by_cases hf : isInfoFulfilled (resetAttributes { i with denied := d })
  · rw [if_pos hf]
    cases commitToGrants st (resetAttributes { i with denied := d }) true <;>
      rfl
  · rw [if_neg hf]

theorem accessNew_info_ok_info (st : ACState) (i : AccessInfo) (d : Bool)
    (b : Access) (h : (accessNew st (.info i) d).1 = .ok b) :
    b.info = resetAttributes { i with denied := d } := by
  rw [accessNew_info] at h
  by_cases hf : isInfoFulfilled (resetAttributes { i with denied := d })
  · rw [if_pos hf] at h
    cases hc : commitToGrants st (resetAttributes { i with denied := d }) true with
    | ok st2 =>
        rw [hc] at h
        rw [← Except.ok.inj h]
    | error e =>
        rw [hc] at h
        exact absurd h (by simp)
  · rw [if_neg hf] at h
    rw [← Except.ok.inj h]

theorem resetAttributes_attributes_isSome (j : AccessInfo) :
    (resetAttributes j).attributes.isSome = true := by
  by_cases hd : j.denied <;> cases hj : j.attributes <;>
    simp [resetAttributes, hd, hj]

theorem resetAttributes_denied (j : AccessInfo) :
    (resetAttributes j).denied = j.denied := by
  by_cases hd : j.denied <;> cases hj : j.attributes <;>
    simp [resetAttributes, hd, hj]

theorem resetAttributes_set_attributes (j : AccessInfo) (v : Option StrOrArr) :
    { resetAttributes j with attributes := v } = { j with attributes := v } := by
  by_cases hd : j.denied <;> cases hj : j.attributes <;>
    simp [resetAttributes, hd, hj]

/-- C10 counterexample: a caller-supplied info object that already holds
`denied = false` and `attributes = ["*"]` is left exactly unchanged by
`grant(info)`, so the claim that the argument object "is not left unchanged
by the call" fails for this input. -/
theorem C10_counterexample :
    (Access.grant ⟨emptyAC, infoNone⟩
        (.info ⟨some (.str "a"), none, some (.arr ["*"]), none, none,
          false⟩)).2 =
      ⟨some (.str "a"), none, some (.arr ["*"]), none, none, false⟩ := rfl

/-- C10 (amended): `grant(info)` and `deny(info)` update the caller-supplied
object before any commit — `denied` is assigned (`false` for grant, `true`
for deny) and the attributes are reset by the defaulting rule, with the
chained `.attributes` call then fixing them to `["*"]` (grant, on success)
or `[]` (deny).  The object's final value is fully determined by these
assignments; it coincides with its original value exactly when the fields
already held the assigned values, so the object is not changed in
general. -/
theorem C10_object_mutation (a : Access) (i : AccessInfo) :
    (Access.deny a (.info i)).2 =
      { i with denied := true, attributes := some (.arr []) } ∧
    (Access.grant a (.info i)).2.denied = false ∧
    (Access.grant a (.info i)).2.attributes.isSome = true ∧
    ∀ b, (Access.grant a (.info i)).1 = .ok b →
      (Access.grant a (.info i)).2 =
        { i with denied := false, attributes := some (.arr ["*"]) } := by
  have hreset : resetAttributes { i with denied := true } =
      { i with denied := true, attributes := some (.arr []) } := by
    simp [resetAttributes]
  refine ⟨?_, ?_, ?_, ?_⟩
  · unfold Access.deny
    rcases hn : accessNew a.grants (.info i) true with ⟨r, obj⟩
    cases r with
    | ok b =>
        have hbinfo : b.info = resetAttributes { i with denied := true } := by
          apply accessNew_info_ok_info a.grants i true b
          rw [hn]
        show { b.info with attributes := some (.arr []) } = _
        rw [hbinfo, resetAttributes_set_attributes]
    | error e =>
        have hobj : obj = resetAttributes { i with denied := true } := by
          have h2 := accessNew_info_snd a.grants i true
          rw [hn] at h2
          exact h2
        show obj = _
        rw [hobj, hreset]
  · unfold Access.grant
    rcases hn : accessNew a.grants (.info i) false with ⟨r, obj⟩
    cases r with
    | ok b =>
        have hbinfo : b.info = resetAttributes { i with denied := false } := by
          apply accessNew_info_ok_info a.grants i false b
          rw [hn]
        show ({ b.info with attributes := some (.arr ["*"]) }).denied = false
        show b.info.denied = false
        rw [hbinfo, resetAttributes_denied]
    | error e =>
        have hobj : obj = resetAttributes { i with denied := false } := by
          have h2 := accessNew_info_snd a.grants i false
          rw [hn] at h2
          exact h2
        show obj.denied = false
        rw [hobj, resetAttributes_denied]
  · unfold Access.grant
    rcases hn : accessNew a.grants (.info i) false with ⟨r, obj⟩
    cases r with
    | ok b =>
        show (some (StrOrArr.arr ["*"])).isSome = true
        rfl
    | error e =>
        have hobj : obj = resetAttributes { i with denied := false } := by
          have h2 := accessNew_info_snd a.grants i false
          rw [hn] at h2
          exact h2
        show obj.attributes.isSome = true
        rw [hobj]
        exact resetAttributes_attributes_isSome _
  · intro b hb
    unfold Access.grant at hb ⊢
    revert hb
    rcases hn : accessNew a.grants (.info i) false with ⟨r, obj⟩
    cases r with
    | ok b0 =>
        intro _
        have hbinfo : b0.info = resetAttributes { i with denied := false } := by
          apply accessNew_info_ok_info a.grants i false b0
          rw [hn]
        show { b0.info with attributes := some (.arr ["*"]) } = _
        rw [hbinfo, resetAttributes_set_attributes]
    | error e =>
        intro hb
        exact absurd hb (by simp)

/-- Witness for C10 (amended): `grant(info)` on an object holding attributes
`["x"]` succeeds and leaves the caller's object with `denied = false` and
attributes `["*"]`; `deny` on the same object leaves it with `denied = true`
and attributes `[]`. -/
theorem C10_object_mutation_witness :
    (Access.grant ⟨emptyAC, infoNone⟩
        (.info ⟨some (.str "a"), none, some (.arr ["x"]), none, none,
          false⟩)).1 =
      .ok ⟨emptyAC,
        ⟨some (.str "a"), none, some (.arr ["*"]), none, none, false⟩⟩ ∧
    (Access.grant ⟨emptyAC, infoNone⟩
        (.info ⟨some (.str "a"), none, some (.arr ["x"]), none, none,
          false⟩)).2 =
      ⟨some (.str "a"), none, some (.arr ["*"]), none, none, false⟩ ∧
    (Access.deny ⟨emptyAC, infoNone⟩
        (.info ⟨some (.str "a"), none, some (.arr ["x"]), none, none,
          false⟩)).2 =
      ⟨some (.str "a"), none, some (.arr []), none, none, true⟩ := by
  have hT := C10_object_mutation ⟨emptyAC, infoNone⟩
    ⟨some (.str "a"), none, some (.arr ["x"]), none, none, false⟩
  refine ⟨rfl, ?_, ?_⟩
  · exact hT.2.2.2
      ⟨emptyAC, ⟨some (.str "a"), none, some (.arr ["*"]), none, none, false⟩⟩
      rfl
  · exact hT.1

end AC

